import Mathlib

/-!
Verification of the bleve search result model (package `search`):
the DocumentMatch record, its location/term-map data model, the
heap-size accounting (`SizeInBytes`), and the per-query `MemTracker`.

Go values are embedded shallowly:
  * Go slices become `GoSlice` (a list of elements plus a capacity),
    so that the `s[:0]` truncation idiom of `Reset` is expressible;
  * Go maps become association lists with unique keys; `mapLookup`
    is `m[k]` and `mapInsert` is `m[k] = v`;
  * `uint64` becomes `Nat` with arithmetic taken modulo `2 ^ 64`;
  * `float64` scores become `Rat` (the claims under study only use
    the ordered-field structure of scores);
  * `len` of a Go string becomes `String.length`.
-/

/-- Modelled from the spec: the per-element overhead constants of the
`index` package (`index.SizeOfPointer` and friends), which are not part
of the sources under study; the spec describes them as fixed per-element
overheads, and they are given their 64-bit platform values. -/
def index.SizeOfPointer : Nat := 8

/-- Modelled from the spec: fixed overhead of a Go string header. -/
def index.SizeOfString : Nat := 16

/-- Modelled from the spec: fixed overhead of a Go slice header. -/
def index.SizeOfSlice : Nat := 24

/-- Modelled from the spec: size of one uint64 element. -/
def index.SizeOfUint64 : Nat := 8

/-- Modelled from the spec: fixed overhead of one interface value. -/
def index.SizeOfInterface : Nat := 16

/-- The process-wide table of fixed per-shape heap overheads. In the source
this is the map `HeapOverhead`, populated once by `init()` with
`reflect.TypeOf(x).Size()` for exactly the nine keys below; the concrete
byte values are modelled (from the spec's description of them as cached
fixed per-shape overheads) with their 64-bit struct-layout values. Looking
up any key that `init()` did not write yields 0, as a Go map lookup does. -/
def HeapOverhead : String → Nat
  | "SearchContext" => 16
  | "DocumentMatchPool" => 48
  | "DocumentMatchCollection" => 24
  | "DocumentMatch" => 144
  | "TermLocationMap" => 8
  | "Location" => 56
  | "Document" => 72
  | "CompositeField" => 64
  | "SearcherOptions" => 10
  | _ => 0

/-- A Go slice: the elements currently in the slice together with the
capacity of its backing array. `s[:0]` keeps `cap` and empties `data`. -/
structure GoSlice (α : Type) where
  data : List α
  cap : Nat
deriving Repr, DecidableEq

/-- The zero value of a Go slice type (a nil slice: no elements, capacity 0). -/
def GoSlice.nil (α : Type) : GoSlice α := ⟨[], 0⟩

/-- Go map lookup `m[k]` on an association list. -/
def mapLookup {α : Type} : List (String × α) → String → Option α
  | [], _ => none
  | (k2, v) :: rest, k => if k2 = k then some v else mapLookup rest k

/-- Go map assignment `m[k] = v` on an association list: replaces the value
of an existing key in place, otherwise adds the binding. -/
def mapInsert {α : Type} : List (String × α) → String → α → List (String × α)
  | [], k, v => [(k, v)]
  | (k2, v2) :: rest, k, v =>
      if k2 = k then (k2, v) :: rest else (k2, v2) :: mapInsert rest k v

/-- The type `ArrayPositions []uint64`. -/
abbrev ArrayPositions := List Nat

/-- The source's `ArrayPositions.Equals`: false when the lengths differ,
otherwise an index-by-index comparison. -/
def ArrayPositions.Equals (ap other : ArrayPositions) : Bool :=
  if ap.length = other.length then
    (ap.zip other).all fun p => p.1 == p.2
  else false

/-- The `Location` struct: position, byte offsets and array positions of one
term occurrence. -/
structure Location where
  Pos : Nat
  Start : Nat
  End : Nat
  ArrayPositions : ArrayPositions
deriving Repr, DecidableEq

/-- The source's `Location.SizeInBytes`. -/
def Location.SizeInBytes (l : Location) : Nat :=
  HeapOverhead "Location" + l.ArrayPositions.length * index.SizeOfUint64

/-- The type `Locations []*Location`. -/
abbrev Locations := List Location

/-- The type `TermLocationMap map[string]Locations`. -/
abbrev TermLocationMap := List (String × Locations)

/-- The source's `TermLocationMap.AddLocation`:
`t[term] = append(t[term], location)` (a missing key reads as nil). -/
def TermLocationMap.AddLocation
    (t : TermLocationMap) (term : String) (location : Location) : TermLocationMap :=
  mapInsert t term (((mapLookup t term).getD []) ++ [location])

/-- The contribution of one `TermLocationMap` entry to `SizeInBytes`: key
length, string overhead, slice overhead, and every location's size. -/
def TermLocationMap.entrySize (kv : String × Locations) : Nat :=
  kv.1.length + index.SizeOfString + index.SizeOfSlice +
    (kv.2.map Location.SizeInBytes).sum

/-- The source's `TermLocationMap.SizeInBytes`: the map's own overhead plus
every entry's contribution. -/
def TermLocationMap.SizeInBytes (t : TermLocationMap) : Nat :=
  HeapOverhead "TermLocationMap" + (t.map TermLocationMap.entrySize).sum

/-- The type `FieldTermLocationMap map[string]TermLocationMap`. -/
abbrev FieldTermLocationMap := List (String × TermLocationMap)

/-- The type `FieldFragmentMap map[string][]string`. -/
abbrev FieldFragmentMap := List (String × List String)

/-- The `MemTracker` struct: a single uint64 accumulator of bytes. -/
structure MemTracker where
  bytes : Nat
deriving Repr, DecidableEq

/-- The modulus of uint64 arithmetic. -/
def uint64Mod : Nat := 2 ^ 64

/-- The source's `NewMemTracker`: a fresh tracker with zero usage. -/
def NewMemTracker : MemTracker := ⟨0⟩

/-- The source's `MemTracker.Add`: `m.bytes += add` in uint64 arithmetic. -/
def MemTracker.Add (m : MemTracker) (add : Nat) : MemTracker :=
  ⟨(m.bytes + add) % uint64Mod⟩

/-- The source's `MemTracker.Usage`: reads the accumulator. -/
def MemTracker.Usage (m : MemTracker) : Nat := m.bytes

/-- Modelled from the spec: the `Explanation` type of the search package
(its file is not among the sources under study); the spec describes it as
an optional tree of (value, description, children), owned by the match. -/
inductive Explanation where
  | node : Rat → String → List Explanation → Explanation
deriving Repr

mutual

/-- Modelled from the spec: `Explanation.SizeInBytes`, composable as its
own fixed shape overhead plus the description's length plus every child's
size, recursively. -/
def Explanation.SizeInBytes : Explanation → Nat
  | Explanation.node _ message children =>
      48 + message.length + Explanation.childrenSize children

/-- Total size of an explanation's children. -/
def Explanation.childrenSize : List Explanation → Nat
  | [] => 0
  | e :: rest => Explanation.SizeInBytes e + Explanation.childrenSize rest

end

/-- Modelled from the spec: the `document.Document` body (fields plus raw
text byte count) that may be lazily attached to a match. Only its ID, its
field and composite-field counts and its plain-text byte count are read by
the sources under study, so those are the modelled components. -/
structure document.Document where
  ID : String
  Fields : Nat
  CompositeFields : Nat
  NumPlainTextBytes : Nat
deriving Repr, DecidableEq

/-- A value stored in `DocumentMatch.Fields`: in the source an
`interface{}` holding a scalar (string / number / date-as-string) or a
`[]interface{}` of previously added values. -/
inductive FieldValue where
  | str : String → FieldValue
  | num : Rat → FieldValue
  | arr : List FieldValue → FieldValue
deriving Repr

/-- Whether a field value is a scalar (not a `[]interface{}`). -/
def FieldValue.isScalar : FieldValue → Bool
  | FieldValue.arr _ => false
  | _ => true

/-- The `DocumentMatch` struct. `IndexInternalID` is the
`index.IndexInternalID` byte slice; `Score` is the float64 score;
`HitNumber` the uint64 natural-order sequence number. -/
structure DocumentMatch where
  Index : String
  ID : String
  IndexInternalID : GoSlice Nat
  Score : Rat
  Expl : Option Explanation
  Locations : FieldTermLocationMap
  Fragments : FieldFragmentMap
  SortValues : GoSlice String
  Fields : List (String × FieldValue)
  Document : Option document.Document
  HitNumber : Nat

/-- The zero value `DocumentMatch{}`. -/
def DocumentMatch.empty : DocumentMatch :=
  ⟨"", "", GoSlice.nil Nat, 0, none, [], [], GoSlice.nil String, [], none, 0⟩

/-- The source's `DocumentMatch.AddFieldValue`: a first occurrence of the
name stores the value itself; when the existing entry is already a
`[]interface{}` the value is appended; otherwise a two-element slice
[existing value, new value] replaces the entry. -/
def DocumentMatch.AddFieldValue
    (dm : DocumentMatch) (name : String) (value : FieldValue) : DocumentMatch :=
  match mapLookup dm.Fields name with
  | none => { dm with Fields := mapInsert dm.Fields name value }
  | some (FieldValue.arr valSlice) =>
      { dm with Fields :=
          mapInsert dm.Fields name (FieldValue.arr (valSlice ++ [value])) }
  | some existingVal =>
      { dm with Fields :=
          mapInsert dm.Fields name (FieldValue.arr [existingVal, value]) }

/-- The source's `DocumentMatch.Reset`: writes the zero value over the
whole struct, then restores `IndexInternalID` and `Sort` as their old
buffers truncated to length 0 (`buf[:0]` keeps the capacity). -/
def DocumentMatch.Reset (dm : DocumentMatch) : DocumentMatch :=
  { DocumentMatch.empty with
      IndexInternalID := ⟨[], dm.IndexInternalID.cap⟩
      SortValues := ⟨[], dm.SortValues.cap⟩ }

/-- The source's `DocumentMatch.SizeInBytes`. Note the final line: the
source multiplies the composite-field count by
`HeapOverhead["CompositeFields"]`, a key `init()` never wrote (it wrote
`"CompositeField"`), so a Go map lookup yields 0 there. -/
def DocumentMatch.SizeInBytes (dm : DocumentMatch) : Nat :=
  HeapOverhead "DocumentMatch" +
    dm.Index.length + dm.ID.length + dm.IndexInternalID.data.length +
  (match dm.Expl with
   | none => 0
   | some e => e.SizeInBytes) +
  (dm.Locations.map fun kv =>
      kv.1.length + index.SizeOfString + TermLocationMap.SizeInBytes kv.2).sum +
  (dm.Fragments.map fun kv =>
      kv.1.length + index.SizeOfString + index.SizeOfSlice +
        (kv.2.map fun entry => entry.length + index.SizeOfString).sum).sum +
  (dm.SortValues.data.map fun entry => entry.length + index.SizeOfString).sum +
  (dm.Fields.map fun kv =>
      kv.1.length + index.SizeOfString + index.SizeOfInterface).sum +
  (match dm.Document with
   | none => 0
   | some d =>
       HeapOverhead "Document" + d.NumPlainTextBytes + d.ID.length +
         d.Fields * index.SizeOfInterface +
         d.CompositeFields * HeapOverhead "CompositeFields")

/-- The JSON keys `encoding/json` emits for a `DocumentMatch`, read off the
struct tags in the source: `json:"-"` fields never appear; `omitempty`
fields appear exactly when their value is not empty (empty string, nil
pointer, empty map or slice); `id` and `score` carry no `omitempty`. -/
def DocumentMatch.jsonKeys (dm : DocumentMatch) : List String :=
  (if dm.Index = "" then [] else ["index"]) ++
  ["id", "score"] ++
  (match dm.Expl with | none => [] | some _ => ["explanation"]) ++
  (if dm.Locations = [] then [] else ["locations"]) ++
  (if dm.Fragments = [] then [] else ["fragments"]) ++
  (if dm.SortValues.data = [] then [] else ["sort"]) ++
  (if dm.Fields.isEmpty then [] else ["fields"])

/-- The type `DocumentMatchCollection []*DocumentMatch`: entries are
pointers and may be nil. -/
abbrev DocumentMatchCollection := List (Option DocumentMatch)

/-- The source's `DocumentMatchCollection.Len`. -/
def DocumentMatchCollection.Len (c : DocumentMatchCollection) : Nat := c.length

/-- The source's `DocumentMatchCollection.Less`:
`c[i].Score > c[j].Score`. An out-of-range index or a nil entry makes the
Go expression panic, embedded as `none`. -/
def DocumentMatchCollection.Less (c : DocumentMatchCollection) (i j : Nat) : Option Bool :=
  match c.get? i, c.get? j with
  | some (some a), some (some b) => some (decide (b.Score < a.Score))
  | _, _ => none

/-- The source's `DocumentMatchCollection.SizeInBytes`: the collection's
own overhead, plus each non-nil entry's size; nil entries are skipped. -/
def DocumentMatchCollection.SizeInBytes (c : DocumentMatchCollection) : Nat :=
  HeapOverhead "DocumentMatchCollection" +
    (c.map fun entry =>
      match entry with
      | none => 0
      | some dm => dm.SizeInBytes).sum

/-- A concrete match carrying a document with one composite field and
nothing else: the input exhibiting the `HeapOverhead` key mismatch. -/
def dmComposite : DocumentMatch :=
  { DocumentMatch.empty with Document := some ⟨"", 0, 1, 0⟩ }

/-- Key equality behind `ArrayPositions.Equals`: the boolean test succeeds
exactly on equal lists. -/
theorem ArrayPositions.equals_eq_true_iff :
    ∀ a b : ArrayPositions, a.Equals b = true ↔ a = b := by
  intro a
  induction a with
  | nil =>
      intro b
      cases b <;> simp [ArrayPositions.Equals]
  | cons x xs ih =>
      intro b
      cases b with
      | nil => simp [ArrayPositions.Equals]
      | cons y ys =>
          by_cases h : xs.length = ys.length
          · have hzip : ((x :: xs).zip (y :: ys)).all (fun p => p.1 == p.2) =
                ((x == y) && ((xs.zip ys).all fun p => p.1 == p.2)) := by
              simp [List.zip]
            have hx : ArrayPositions.Equals xs ys =
                ((xs.zip ys).all fun p => p.1 == p.2) := by
              simp [ArrayPositions.Equals, h]
            simp only [ArrayPositions.Equals, List.length_cons, h, if_pos rfl,
              hzip, if_true]
            rw [Bool.and_eq_true, ← hx, beq_iff_eq, ih ys]
            constructor
            · rintro ⟨h1, h2⟩; rw [h1, h2]
            · intro h12
              injection h12 with h1 h2
              exact ⟨h1, h2⟩
          · have hne : ¬ (x :: xs).length = (y :: ys).length := by
              simpa using h
            simp only [ArrayPositions.Equals, if_neg hne]
            constructor
            · intro hf; exact absurd hf (by simp)
            · intro hcontra
              injection hcontra with h1 h2
              exact absurd (by rw [h2]) h

/-- C1: `Reset` clears every field of a `DocumentMatch` to its zero value
(Score 0; Index, ID empty; Expl, Locations, Fragments, Fields, Document
absent; HitNumber 0), except that the `IndexInternalID` buffer and the
sort-values buffer are truncated to length 0 with their capacity kept; the
returned value is the match itself in that state. -/
theorem C1_reset_clears_and_keeps_capacity (dm : DocumentMatch) :
    dm.Reset.Score = 0 ∧ dm.Reset.Index = "" ∧ dm.Reset.ID = "" ∧
    dm.Reset.Expl = none ∧ dm.Reset.Locations = [] ∧
    dm.Reset.Fragments = [] ∧ dm.Reset.Fields = [] ∧
    dm.Reset.Document = none ∧ dm.Reset.HitNumber = 0 ∧
    dm.Reset.IndexInternalID.data = [] ∧
    dm.Reset.IndexInternalID.cap = dm.IndexInternalID.cap ∧
    dm.Reset.SortValues.data = [] ∧
    dm.Reset.SortValues.cap = dm.SortValues.cap :=
  ⟨rfl, rfl, rfl, rfl, rfl, rfl, rfl, rfl, rfl, rfl, rfl, rfl, rfl⟩

/-- C2: on a match whose attached document carries one composite field,
`DocumentMatch.SizeInBytes` contributes nothing for that composite field:
it reads `HeapOverhead` at the key "CompositeFields", which `init()` never
wrote (it wrote "CompositeField", whose cached overhead is positive), so
the per-composite-field term the claim describes is missing. -/
theorem C2_compositeFields_key_missing :
    DocumentMatch.SizeInBytes dmComposite =
      HeapOverhead "DocumentMatch" + HeapOverhead "Document" ∧
    HeapOverhead "CompositeFields" = 0 ∧ 0 < HeapOverhead "CompositeField" := by
  refine ⟨by decide, by decide, by decide⟩

/-- C3 counterexample: `Usage` after `Add(2^63), Add(2^63), Add(0)` on a
fresh tracker is not `2^63 + 2^63 + 0`: the uint64 accumulator wraps. -/
theorem C3_counterexample_overflow :
    ¬ ((((NewMemTracker.Add (2 ^ 63)).Add (2 ^ 63)).Add 0).Usage =
        2 ^ 63 + 2 ^ 63 + 0) := by decide

/-- C3 (amended): after `Add(a), Add(b), Add(c)` on a fresh tracker,
`Usage` equals `a + b + c` reduced modulo `2^64` (so it equals `a + b + c`
exactly when that sum fits in a uint64); `Add` never fails and no upper
bound is enforced. -/
theorem C3_usage_is_sum_mod_uint64 (a b c : Nat) :
    (((NewMemTracker.Add a).Add b).Add c).Usage = (a + b + c) % uint64Mod := by
  simp [NewMemTracker, MemTracker.Add, MemTracker.Usage, Nat.mod_add_mod]

/-- C6 counterexample: from the reachable state after `Add(1)`, a further
`Add(2^64 - 1)` wraps the uint64 accumulator to 0, so `Usage` decreases. -/
theorem C6_counterexample_wraparound :
    ¬ (((NewMemTracker.Add 1).Add (2 ^ 64 - 1)).Usage ≥
        (NewMemTracker.Add 1).Usage) := by decide

/-- C6 (amended): `Usage` never decreases across `Add(n)` as long as the
accumulator plus `n` stays below `2^64` (no uint64 wraparound); there is no
decrement operation in the interface. -/
theorem C6_monotone_without_wraparound (m : MemTracker) (n : Nat)
    (h : m.bytes + n < uint64Mod) :
    (m.Add n).Usage ≥ m.Usage := by
  simp only [MemTracker.Add, MemTracker.Usage, ge_iff_le]
  rw [Nat.mod_eq_of_lt h]
  exact Nat.le_add_right m.bytes n

/-- C6 witness: the amended monotonicity at the concrete state 5 and
increment 7. -/
theorem C6_monotone_witness :
    ((MemTracker.mk 5).Add 7).Usage ≥ (MemTracker.mk 5).Usage :=
  C6_monotone_without_wraparound ⟨5⟩ 7 (by norm_num [uint64Mod])

/-- C9: `ArrayPositions.Equals` returns true exactly when the two sequences
have the same length and equal elements at every index (that is, exactly on
equal sequences), and consequently it is reflexive and symmetric. -/
theorem C9_equals_iff_same_elements (a b : ArrayPositions) :
    (ArrayPositions.Equals a b = true ↔
      a.length = b.length ∧ ∀ i : Nat, a.get? i = b.get? i) ∧
    ArrayPositions.Equals a a = true ∧
    (ArrayPositions.Equals a b = true → ArrayPositions.Equals b a = true) := by
  have key : ∀ x y : ArrayPositions,
      (ArrayPositions.Equals x y = true ↔ x = y) :=
    ArrayPositions.equals_eq_true_iff
  refine ⟨?_, (key a a).mpr rfl, ?_⟩
  · rw [key a b]
    constructor
    · rintro rfl; exact ⟨rfl, fun _ => rfl⟩
    · rintro ⟨-, h⟩; exact List.ext_get? h
  · intro h
    exact (key b a).mpr ((key a b).mp h).symm

/-- Inserting at a key makes that key's lookup return the new value. -/
theorem mapLookup_mapInsert_self {α : Type} (m : List (String × α)) (k : String) (v : α) :
    mapLookup (mapInsert m k v) k = some v := by
  induction m with
  | nil => simp [mapInsert, mapLookup]
  | cons kv rest ih =>
      obtain ⟨k2, v2⟩ := kv
      by_cases h : k2 = k
      · simp [mapInsert, mapLookup, h]
      · simp [mapInsert, mapLookup, h, ih]

/-- Inserting at one key leaves every other key's lookup unchanged. -/
theorem mapLookup_mapInsert_ne {α : Type} (m : List (String × α)) (k k2 : String)
    (v : α) (h : k2 ≠ k) : mapLookup (mapInsert m k v) k2 = mapLookup m k2 := by
  induction m with
  | nil => simp [mapInsert, mapLookup, Ne.symm h]
  | cons kv rest ih =>
      obtain ⟨k3, v3⟩ := kv
      by_cases h3 : k3 = k
      · subst h3
        simp [mapInsert, mapLookup, Ne.symm h]
      · simp [mapInsert, mapLookup, h3, ih]

/-- Every location carries at least its fixed shape overhead. -/
theorem Location.sizeInBytes_pos (loc : Location) : 0 < loc.SizeInBytes := by
  have h : HeapOverhead "Location" = 56 := rfl
  simp only [Location.SizeInBytes, h]
  omega

/-- Adding a location strictly grows the entry-size sum of a term map. -/
theorem tlm_sum_addLocation_lt (term : String) (loc : Location) :
    ∀ t : TermLocationMap,
      (t.map TermLocationMap.entrySize).sum <
        ((TermLocationMap.AddLocation t term loc).map TermLocationMap.entrySize).sum := by
  intro t
  induction t with
  | nil =>
      have hpos := Location.sizeInBytes_pos loc
      simp [TermLocationMap.AddLocation, mapLookup, mapInsert,
        TermLocationMap.entrySize]
      omega
  | cons kv rest ih =>
      obtain ⟨k, v⟩ := kv
      by_cases h : k = term
      · subst h
        have hpos := Location.sizeInBytes_pos loc
        simp [TermLocationMap.AddLocation, mapLookup, mapInsert,
          TermLocationMap.entrySize]
        omega
      · have hstep : TermLocationMap.AddLocation ((k, v) :: rest) term loc =
            (k, v) :: TermLocationMap.AddLocation rest term loc := by
          simp [TermLocationMap.AddLocation, mapLookup, mapInsert, h]
        rw [hstep]
        simp only [List.map_cons, List.sum_cons]
        exact Nat.add_lt_add_left ih _

/-- Replacing the value at a present key by one with a strictly larger
contribution strictly grows the mapped sum. -/
theorem sum_mapInsert_strict {α : Type} (g : String × α → Nat) :
    ∀ (m : List (String × α)) (f : String) (v w : α),
      mapLookup m f = some v → g (f, v) < g (f, w) →
      (m.map g).sum < ((mapInsert m f w).map g).sum := by
  intro m
  induction m with
  | nil =>
      intro f v w hl _
      simp [mapLookup] at hl
  | cons kv rest ih =>
      intro f v w hl hg
      obtain ⟨k, u⟩ := kv
      by_cases h : k = f
      · subst h
        have hu : u = v := by simpa [mapLookup] using hl
        subst hu
        simp only [mapInsert, if_pos rfl, List.map_cons, List.sum_cons]
        exact Nat.add_lt_add_right hg _
      · have hl2 : mapLookup rest f = some v := by
          simpa [mapLookup, h] using hl
        simp only [mapInsert, if_neg h, List.map_cons, List.sum_cons]
        exact Nat.add_lt_add_left (ih f v w hl2 hg) _

/-- A match with its `Locations` field replaced: the state of `dm` after a
mutation of the locations map it holds. -/
def DocumentMatch.withLocations (dm : DocumentMatch) (l : FieldTermLocationMap) :
    DocumentMatch :=
  { dm with Locations := l }

/-- C4: adding any location under any term to a `TermLocationMap` stored in
a match's `Locations` strictly increases that term map's `SizeInBytes` and
the match's `SizeInBytes`. -/
theorem C4_addLocation_strictly_increases (dm : DocumentMatch)
    (f term : String) (tlm : TermLocationMap) (loc : Location)
    (h : mapLookup dm.Locations f = some tlm) :
    TermLocationMap.SizeInBytes tlm <
      TermLocationMap.SizeInBytes (TermLocationMap.AddLocation tlm term loc) ∧
    dm.SizeInBytes <
      (dm.withLocations
        (mapInsert dm.Locations f (TermLocationMap.AddLocation tlm term loc))).SizeInBytes := by
  have htlm : TermLocationMap.SizeInBytes tlm <
      TermLocationMap.SizeInBytes (TermLocationMap.AddLocation tlm term loc) := by
    simp only [TermLocationMap.SizeInBytes]
    exact Nat.add_lt_add_left (tlm_sum_addLocation_lt term loc tlm) _
  refine ⟨htlm, ?_⟩
  have hsum := sum_mapInsert_strict
      (fun kv => kv.1.length + index.SizeOfString + TermLocationMap.SizeInBytes kv.2)
      dm.Locations f tlm (TermLocationMap.AddLocation tlm term loc) h
      (by simpa using htlm)
  simp only [DocumentMatch.withLocations, DocumentMatch.SizeInBytes]
  omega

/-- A concrete match with one (empty) term map under the field "body". -/
def dmLoc : DocumentMatch :=
  { DocumentMatch.empty with Locations := [("body", [])] }

/-- C4 witness: the strict increase at the concrete match `dmLoc`, the term
"x" and a location at position 1. -/
theorem C4_addLocation_witness :
    TermLocationMap.SizeInBytes [] <
      TermLocationMap.SizeInBytes (TermLocationMap.AddLocation [] "x" ⟨1, 0, 5, []⟩) ∧
    dmLoc.SizeInBytes <
      (dmLoc.withLocations
        (mapInsert dmLoc.Locations "body"
          (TermLocationMap.AddLocation [] "x" ⟨1, 0, 5, []⟩))).SizeInBytes :=
  C4_addLocation_strictly_increases dmLoc "body" "x" [] ⟨1, 0, 5, []⟩ (by decide)

/-- C5: `AddFieldValue` stores a first occurrence as the value itself,
promotes a second occurrence of a scalar entry to the two-element sequence
[first, second], appends to the end of an existing sequence otherwise, and
leaves every other field name's entry unchanged. -/
theorem C5_addFieldValue_promotion (dm : DocumentMatch) (name : String)
    (value : FieldValue) :
    (mapLookup dm.Fields name = none →
      mapLookup (dm.AddFieldValue name value).Fields name = some value) ∧
    (∀ u : FieldValue, mapLookup dm.Fields name = some u → u.isScalar = true →
      mapLookup (dm.AddFieldValue name value).Fields name =
        some (FieldValue.arr [u, value])) ∧
    (∀ l : List FieldValue, mapLookup dm.Fields name = some (FieldValue.arr l) →
      mapLookup (dm.AddFieldValue name value).Fields name =
        some (FieldValue.arr (l ++ [value]))) ∧
    (∀ k : String, k ≠ name →
      mapLookup (dm.AddFieldValue name value).Fields k = mapLookup dm.Fields k) := by
  refine ⟨?_, ?_, ?_, ?_⟩
  · intro h
    simp [DocumentMatch.AddFieldValue, h, mapLookup_mapInsert_self]
  · intro u hu hscalar
    cases u with
    | arr l => simp [FieldValue.isScalar] at hscalar
    | str s => simp [DocumentMatch.AddFieldValue, hu, mapLookup_mapInsert_self]
    | num q => simp [DocumentMatch.AddFieldValue, hu, mapLookup_mapInsert_self]
  · intro l hl
    simp [DocumentMatch.AddFieldValue, hl, mapLookup_mapInsert_self]
  · intro k hk
    rcases hcase : mapLookup dm.Fields name with _ | u
    · simp [DocumentMatch.AddFieldValue, hcase, mapLookup_mapInsert_ne _ _ _ _ hk]
    · cases u <;>
        simp [DocumentMatch.AddFieldValue, hcase, mapLookup_mapInsert_ne _ _ _ _ hk]

/-- C7: the collection's order predicate compares scores, higher first:
with both entries in range and non-nil, `Less i j` is true exactly when
entry i's score strictly exceeds entry j's, and two equal scores are
ordered in neither direction. -/
theorem C7_less_is_higher_score_first (c : DocumentMatchCollection) (i j : Nat)
    (a b : DocumentMatch) (ha : c.get? i = some (some a))
    (hb : c.get? j = some (some b)) :
    (DocumentMatchCollection.Less c i j = some true ↔ b.Score < a.Score) ∧
    (a.Score = b.Score →
      DocumentMatchCollection.Less c i j = some false ∧
      DocumentMatchCollection.Less c j i = some false) := by
  simp only [List.get?_eq_getElem?] at ha hb
  constructor
  · simp [DocumentMatchCollection.Less, ha, hb]
  · intro hs
    refine ⟨?_, ?_⟩ <;> simp [DocumentMatchCollection.Less, ha, hb, hs]

/-- A concrete match with score 2. -/
def dmHigh : DocumentMatch := { DocumentMatch.empty with Score := 2 }

/-- A concrete match with score 1. -/
def dmLow : DocumentMatch := { DocumentMatch.empty with Score := 1 }

/-- C7 witness: the order predicate at the concrete two-element collection
[score 2, score 1]. -/
theorem C7_less_witness :
    (DocumentMatchCollection.Less [some dmHigh, some dmLow] 0 1 = some true ↔
      dmLow.Score < dmHigh.Score) ∧
    (dmHigh.Score = dmLow.Score →
      DocumentMatchCollection.Less [some dmHigh, some dmLow] 0 1 = some false ∧
      DocumentMatchCollection.Less [some dmHigh, some dmLow] 1 0 = some false) :=
  C7_less_is_higher_score_first [some dmHigh, some dmLow] 0 1 dmHigh dmLow rfl rfl

/-- C10: the collection's `SizeInBytes` is total on collections with nil
entries: it equals the fixed collection overhead plus the sum of the
non-nil entries' sizes, and appending a nil entry changes nothing. -/
theorem C10_collection_size_skips_nil (c : DocumentMatchCollection) :
    DocumentMatchCollection.SizeInBytes c =
      HeapOverhead "DocumentMatchCollection" +
        ((c.filterMap id).map DocumentMatch.SizeInBytes).sum ∧
    DocumentMatchCollection.SizeInBytes (c ++ [none]) =
      DocumentMatchCollection.SizeInBytes c := by
  have key : ∀ l : DocumentMatchCollection,
      (l.map fun entry =>
        match entry with
        | none => 0
        | some dm => dm.SizeInBytes).sum =
      ((l.filterMap id).map DocumentMatch.SizeInBytes).sum := by
    intro l
    induction l with
    | nil => simp
    | cons e rest ih => cases e <;> simp [ih]
  constructor
  · simp only [DocumentMatchCollection.SizeInBytes, key]
  · simp only [DocumentMatchCollection.SizeInBytes, List.map_append, List.sum_append]
    simp

/-- C8: the external JSON serialization of a `DocumentMatch` uses only the
keys index, id, score, explanation, locations, fragments, sort, fields;
id and score are always present; each of the others appears exactly when
its field is non-empty; and internalId, document and hitNumber never
appear. -/
theorem C8_json_keys (dm : DocumentMatch) :
    (∀ k ∈ dm.jsonKeys,
      k ∈ ["index", "id", "score", "explanation", "locations",
           "fragments", "sort", "fields"]) ∧
    "id" ∈ dm.jsonKeys ∧ "score" ∈ dm.jsonKeys ∧
    "internalId" ∉ dm.jsonKeys ∧ "document" ∉ dm.jsonKeys ∧
    "hitNumber" ∉ dm.jsonKeys ∧
    ("index" ∈ dm.jsonKeys ↔ dm.Index ≠ "") ∧
    ("explanation" ∈ dm.jsonKeys ↔ dm.Expl ≠ none) ∧
    ("locations" ∈ dm.jsonKeys ↔ dm.Locations ≠ []) ∧
    ("fragments" ∈ dm.jsonKeys ↔ dm.Fragments ≠ []) ∧
    ("sort" ∈ dm.jsonKeys ↔ dm.SortValues.data ≠ []) ∧
    ("fields" ∈ dm.jsonKeys ↔ dm.Fields ≠ []) := by
  unfold DocumentMatch.jsonKeys
  by_cases h1 : dm.Index = "" <;>
  rcases hE : dm.Expl with _ | e <;>
  by_cases h3 : dm.Locations = [] <;>
  by_cases h4 : dm.Fragments = [] <;>
  by_cases h5 : dm.SortValues.data = [] <;>
  rcases hF : dm.Fields with _ | ⟨kv, rest⟩ <;>
  simp_all [List.isEmpty]
